import Mathlib

/-!
Verification development for the OCR-SAM interactive inpainting app
(`mmocr_sam_inpainting_app.py`).  The file shallowly embeds the two
orchestration entry points of the source — `run_mmocr_sam` (Stage A:
detect + segment, lines 51-119) and `run_downstream` (Stage B: inpaint a
selected region, lines 122-156) — together with the gradio wiring
(lines 159-190).  The three pretrained model backends (MMOCR, SAM, the
diffusion pipeline) and the plotting canvas are external collaborators;
they enter the embedding as function parameters or as explicitly
documented models of the library calls the source makes.

Conventions:
* a pixel is a triple of `Nat` channel values; uint8 arithmetic is
  explicit `% 256`;
* an image is a width, a height and a total pixel function (a dense
  `np.ndarray` / `PIL.Image`);
* all text (the serialized mask table, the index box, the summary
  string) is a `List Char`.
-/

set_option maxHeartbeats 1000000
set_option maxRecDepth 100000

namespace OcrSam

/-- One pixel: three colour channels (`c0, c1, c2`).  For a cv2 (BGR)
image `c0` is blue; after `cv2.cvtColor(..., COLOR_BGR2RGB)` the
channels are reversed. -/
structure Pix where
  c0 : Nat
  c1 : Nat
  c2 : Nat
deriving DecidableEq, Repr

/-- A dense image: dimensions plus a total pixel function, the shallow
embedding of an `np.ndarray` of shape `(height, width, 3)` or of a PIL
`Image` whose `size` is `(width, height)`. -/
structure Img where
  width : Nat
  height : Nat
  px : Nat → Nat → Pix

/-- `cv2.cvtColor` with `COLOR_BGR2RGB` or `COLOR_RGB2BGR` (source lines
91, 116, 140, 155): both reverse the channel order. -/
def cvtColor (i : Img) : Img :=
  ⟨i.width, i.height, fun x y => ⟨(i.px x y).c2, (i.px x y).c1, (i.px x y).c0⟩⟩

/-- uint8 addition of two pixels: numpy `+` on `uint8` wraps modulo 256
(source line 153, `np.array(img) + np.array(masked_diff_result)`). -/
def pixAdd8 (a b : Pix) : Pix :=
  ⟨(a.c0 + b.c0) % 256, (a.c1 + b.c1) % 256, (a.c2 + b.c2) % 256⟩

/-- uint8 multiplication of two pixels: numpy `*` on `uint8` wraps modulo
256 (source line 150, `np.array(diff_result) * np.array(mask.resize(...))`). -/
def pixMul8 (a b : Pix) : Pix :=
  ⟨(a.c0 * b.c0) % 256, (a.c1 * b.c1) % 256, (a.c2 * b.c2) % 256⟩

/-- Elementwise uint8 sum of two images of equal shape (source line 153). -/
def addImages (a b : Img) : Img :=
  ⟨a.width, a.height, fun x y => pixAdd8 (a.px x y) (b.px x y)⟩

/-- Elementwise uint8 product of two images of equal shape (source line 150). -/
def mulImages (a b : Img) : Img :=
  ⟨a.width, a.height, fun x y => pixMul8 (a.px x y) (b.px x y)⟩

/-- Modelled: `PIL.Image.resize((w, h))` (source lines 148, 150-151).
The external library's resampling filter is modelled as point sampling:
target pixel `(x, y)` reads source pixel `(x·W/w, y·H/h)` (integer
division).  Resizing an image to its own size is the identity, as with
any interpolating kernel. -/
def resize (w h : Nat) (i : Img) : Img :=
  ⟨w, h, fun x y => i.px (x * i.width / w) (y * i.height / h)⟩

/-- A polygon: the `(-1, 2)`-reshaped point list of an MMOCR
`det_polygons` entry (source line 98).  Coordinates are modelled as
integers; the source carries floats, whose `repr`/`eval` round trip in
Python is exact, so the abstraction does not affect any claim below. -/
abbrev Polygon := List (Int × Int)

/-- An axis-aligned box `(x0, y0, x1, y1)`. -/
abbrev BBox := Int × Int × Int × Int

/-- Smallest int of a list (0 for the empty list, which the source never
feeds it). -/
def listMin : List Int → Int
  | [] => 0
  | x :: xs => xs.foldl min x

/-- Largest int of a list (0 for the empty list). -/
def listMax : List Int → Int
  | [] => 0
  | x :: xs => xs.foldl max x

/-- `mmocr.utils.poly2bbox` (source line 74): the smallest axis-aligned
rectangle enclosing all polygon points. -/
def poly2bbox (p : Polygon) : BBox :=
  (listMin (p.map Prod.fst), listMin (p.map Prod.snd),
   listMax (p.map Prod.fst), listMax (p.map Prod.snd))

/-- `np.concatenate([polygon, polygon[:1]], axis=0)` (source line 100):
close the polygon by appending its first point. -/
def closePoly (p : Polygon) : Polygon := p ++ p.take 1

/-- `mask.cpu().numpy().tolist()` of one SAM mask (source line 113): the
`predict_torch` output has shape `(1, H, W)` per box, so one stored mask
is a three-level list of booleans. -/
abbrev Mask3 := List (List (List Bool))

/-- One entry of the mask table (source lines 112-113):
`dict(mask=..., polygon=...)`. -/
structure MaskEntry where
  mask : Mask3
  polygon : Polygon
deriving DecidableEq, Repr

/-- The mask table: the Python dict `outputs` (source line 93, filled at
line 112), as the association list of its `index → entry` items in
insertion order. -/
abbrev MaskTable := List (Int × MaskEntry)

/-- Python `dict` lookup on the items of a dict literal: the last binding
of a key wins (duplicate keys in a literal overwrite earlier ones). -/
def lookupTable (k : Int) (t : MaskTable) : Option MaskEntry :=
  t.foldl (fun acc kv => if kv.1 = k then some kv.2 else acc) none

/-- Whether the 2-D boolean grid holds `true` at column `x`, row `y`
(out-of-range reads are `false`). -/
def maskAt (m : List (List Bool)) (x y : Nat) : Bool :=
  (m.getD y []).getD x false

/-- Source lines 134-139: `np.array(...)`, threshold `(mask > 0.5)`,
cast to uint8 and stack to three channels.  The result is a `{0,1}`
valued three-channel image whose shape is the grid's. -/
def binMask (m : List (List Bool)) : Img :=
  ⟨(m.headD []).length, m.length,
   fun x y => if maskAt m x y then ⟨1, 1, 1⟩ else ⟨0, 0, 0⟩⟩

/-! ## Decimal integers on the wire

Stage A hands its mask table to the interaction surface as text (the
gradio `Textbox`, source lines 166, 184) and Stage B reads it back
(source line 133).  The wire format is the Python `repr` of the
`outputs` dict; the pieces below print and parse its tokens. -/

/-- The character of one decimal digit. -/
def digCh (d : Nat) : Char :=
  match d with
  | 0 => '0' | 1 => '1' | 2 => '2' | 3 => '3' | 4 => '4'
  | 5 => '5' | 6 => '6' | 7 => '7' | 8 => '8' | _ => '9'

/-- The value of one decimal digit character. -/
def digitVal (c : Char) : Nat := c.toNat - 48

/-- Decimal digit test (`'0' ≤ c ≤ '9'`). -/
def isDigitCh (c : Char) : Bool := 48 ≤ c.toNat && c.toNat ≤ 57

/-- Little-endian decimal digits of `n`, with fuel (call with fuel `> n`). -/
def natDigsAux : Nat → Nat → List Nat
  | 0, _ => []
  | f + 1, n => if n < 10 then [n] else n % 10 :: natDigsAux f (n / 10)

/-- Little-endian decimal digits of `n`. -/
def natDigs (n : Nat) : List Nat := natDigsAux (n + 1) n

/-- The decimal rendering of a natural number, as Python prints an
`int` key or coordinate. -/
def printNat (n : Nat) : List Char := ((natDigs n).map digCh).reverse

/-- The decimal rendering of an integer (Python `repr` of an `int`). -/
def printInt (k : Int) : List Char :=
  if k < 0 then '-' :: printNat k.natAbs else printNat k.natAbs

/-- Split the longest digit prefix off a character list. -/
def takeDigs : List Char → List Char × List Char
  | [] => ([], [])
  | c :: cs =>
    if isDigitCh c then (c :: (takeDigs cs).1, (takeDigs cs).2)
    else ([], c :: cs)

/-- Fold big-endian digit characters onto an accumulator. -/
def digsToNat : Nat → List Char → Nat
  | acc, [] => acc
  | acc, c :: cs => digsToNat (10 * acc + digitVal c) cs

/-- Parse a decimal natural number off the front of the input. -/
def parseNat (s : List Char) : Option (Nat × List Char) :=
  match takeDigs s with
  | ([], _) => none
  | (ds, r) => some (digsToNat 0 ds, r)

/-- Parse a decimal integer (optional leading minus sign). -/
def parseInt (s : List Char) : Option (Int × List Char) :=
  match s with
  | [] => none
  | c :: cs =>
    if c = '-' then (parseNat cs).map (fun p => (-(p.1 : Int), p.2))
    else (parseNat (c :: cs)).map (fun p => ((p.1 : Int), p.2))

/-- The input does not begin with a decimal digit (so a greedy number
parse to its left stops exactly there). -/
def notDigitStart : List Char → Prop
  | [] => True
  | c :: _ => isDigitCh c = false

instance : DecidablePred notDigitStart := fun s => by
  cases s <;> simp [notDigitStart] <;> infer_instance

/-! ### Round-trip lemmas for decimal integers -/

theorem natDigsAux_lt_ten {f n : Nat} (h : n < f) :
    ∀ d ∈ natDigsAux f n, d < 10 := by
  induction f generalizing n with
  | zero => omega
  | succ f ih =>
    intro d hd
    rw [natDigsAux] at hd
    by_cases h10 : n < 10
    · simp [h10] at hd; omega
    · simp [h10] at hd
      rcases hd with hd | hd
      · omega
      · exact ih (by omega : n / 10 < f) d hd

theorem natDigsAux_ne_nil {f n : Nat} (h : n < f) : natDigsAux f n ≠ [] := by
  cases f with
  | zero => omega
  | succ f =>
    rw [natDigsAux]
    by_cases h10 : n < 10 <;> simp [h10]

/-- Value of a little-endian digit list. -/
def ofDigsLE : List Nat → Nat
  | [] => 0
  | d :: ds => d + 10 * ofDigsLE ds

theorem ofDigsLE_natDigsAux {f n : Nat} (h : n < f) :
    ofDigsLE (natDigsAux f n) = n := by
  induction f generalizing n with
  | zero => omega
  | succ f ih =>
    rw [natDigsAux]
    by_cases h10 : n < 10
    · simp [h10, ofDigsLE]
    · simp only [h10, if_false, ofDigsLE]
      rw [ih (by omega : n / 10 < f)]
      omega

theorem digitVal_digCh {d : Nat} (h : d < 10) : digitVal (digCh d) = d := by
  interval_cases d <;> rfl

theorem isDigitCh_digCh {d : Nat} (h : d < 10) : isDigitCh (digCh d) = true := by
  interval_cases d <;> rfl

theorem printNat_all_digits (n : Nat) : ∀ c ∈ printNat n, isDigitCh c = true := by
  intro c hc
  simp only [printNat, natDigs, List.mem_reverse, List.mem_map] at hc
  obtain ⟨d, hd, rfl⟩ := hc
  exact isDigitCh_digCh (natDigsAux_lt_ten (Nat.lt_succ_self n) d hd)

theorem printNat_ne_nil (n : Nat) : printNat n ≠ [] := by
  simp only [printNat, natDigs]
  intro h
  exact natDigsAux_ne_nil (Nat.lt_succ_self n)
    (List.map_eq_nil_iff.mp (List.reverse_eq_nil_iff.mp h))

theorem takeDigs_digits_prefix {ds rest : List Char}
    (hds : ∀ c ∈ ds, isDigitCh c = true) (hr : notDigitStart rest) :
    takeDigs (ds ++ rest) = (ds, rest) := by
  induction ds with
  | nil =>
    cases rest with
    | nil => rfl
    | cons c cs =>
      simp only [notDigitStart] at hr
      simp [takeDigs, hr]
  | cons c cs ih =>
    have hc : isDigitCh c = true := hds c (by simp)
    have h2 := ih (fun x hx => hds x (by simp [hx]))
    simp [takeDigs, hc, h2]

theorem digsToNat_nil (acc : Nat) : digsToNat acc [] = acc := rfl

theorem digsToNat_cons (acc : Nat) (c : Char) (cs : List Char) :
    digsToNat acc (c :: cs) = digsToNat (10 * acc + digitVal c) cs := rfl

theorem digsToNat_acc (acc : Nat) (l : List Char) :
    digsToNat acc l = acc * 10 ^ l.length + digsToNat 0 l := by
  induction l generalizing acc with
  | nil => simp [digsToNat_nil]
  | cons c cs ih =>
    rw [digsToNat_cons, digsToNat_cons]
    rw [ih (10 * acc + digitVal c), ih (10 * 0 + digitVal c)]
    simp only [List.length_cons, pow_succ]
    ring

theorem digsToNat_append_single (l : List Char) (c : Char) :
    digsToNat 0 (l ++ [c]) = 10 * digsToNat 0 l + digitVal c := by
  induction l with
  | nil => simp [digsToNat_nil, digsToNat_cons]
  | cons d ds ih =>
    rw [List.cons_append, digsToNat_cons, digsToNat_cons]
    rw [digsToNat_acc _ (ds ++ [c]), digsToNat_acc _ ds, ih]
    simp only [List.length_append, List.length_cons, List.length_nil]
    ring

theorem digsToNat_printNat (n : Nat) : digsToNat 0 (printNat n) = n := by
  suffices h : ∀ ds : List Nat, (∀ d ∈ ds, d < 10) →
      digsToNat 0 ((ds.map digCh).reverse) = ofDigsLE ds by
    rw [printNat]
    rw [h (natDigs n) (natDigsAux_lt_ten (Nat.lt_succ_self n))]
    exact ofDigsLE_natDigsAux (Nat.lt_succ_self n)
  intro ds hds
  induction ds with
  | nil => rfl
  | cons d ds ih =>
    simp only [List.map_cons, List.reverse_cons, ofDigsLE]
    rw [digsToNat_append_single, ih (fun x hx => hds x (by simp [hx])),
      digitVal_digCh (hds d (by simp))]
    ring

theorem printNat_head_digit (n : Nat) :
    ∃ c cs, printNat n = c :: cs ∧ isDigitCh c = true := by
  cases h : printNat n with
  | nil => exact absurd h (printNat_ne_nil n)
  | cons c cs => exact ⟨c, cs, rfl, printNat_all_digits n c (by simp [h])⟩

/-- Round trip for naturals: parsing after printing recovers the number
and leaves the (non-digit-initial) suffix untouched. -/
theorem parseNat_printNat (n : Nat) (rest : List Char) (hr : notDigitStart rest) :
    parseNat (printNat n ++ rest) = some (n, rest) := by
  have ht := takeDigs_digits_prefix (printNat_all_digits n) hr
  obtain ⟨c, cs, h, -⟩ := printNat_head_digit n
  rw [parseNat, ht, h]
  simp only []
  rw [← h, digsToNat_printNat]

/-- Round trip for integers. -/
theorem parseInt_printInt (k : Int) (rest : List Char) (hr : notDigitStart rest) :
    parseInt (printInt k ++ rest) = some (k, rest) := by
  by_cases hk : k < 0
  · have habs : -|k| = k := by rw [abs_of_neg hk]; ring
    simp [printInt, hk, parseInt, parseNat_printNat k.natAbs rest hr,
      Int.natCast_natAbs, habs]
  · obtain ⟨c, cs, hpn, hc⟩ := printNat_head_digit k.natAbs
    have hcm : ¬c = '-' := by
      intro h
      rw [h] at hc
      exact absurd hc (by decide)
    have hx : printInt k ++ rest = c :: (cs ++ rest) := by
      simp [printInt, hk, hpn]
    rw [hx, parseInt]
    simp only [if_neg hcm]
    rw [← List.cons_append, ← hpn, parseNat_printNat k.natAbs rest hr]
    simp [Int.natCast_natAbs, abs_of_nonneg (by omega : (0:Int) ≤ k)]

/-! ## The serialized mask table

`run_mmocr_sam` returns the Python dict `outputs`; the gradio `Textbox`
holding it (source line 166) renders it as its `repr`, e.g.
`{0: {'mask': [[[True, False]]], 'polygon': [[10, 10], [50, 30], [10, 10]]}}`,
and Stage B receives that text back (source line 122, `mask_results`).
`serializeMaskTable` prints this representation.

The source deserializes with Python `eval` (line 133).  On the strings
the Stage A serializer produces, `eval` coincides with parsing the
literal, which `deserializeMaskTable` below implements; on arbitrary
strings `eval` instead executes the input as code — it is not a graceful
parser (see the spec's design note on this hazard; claim C2). -/

/-- Single-quote character (in the Python repr around dict keys). -/
def sq : Char := Char.ofNat 39

/-- Left brace. -/
def lbr : Char := Char.ofNat 123

/-- Right brace. -/
def rbr : Char := Char.ofNat 125

/-- Python `repr` of a boolean. -/
def printBool (b : Bool) : List Char :=
  if b then ['T', 'r', 'u', 'e'] else ['F', 'a', 'l', 's', 'e']

/-- Parse a Python boolean literal. -/
def parseBool : List Char → Option (Bool × List Char)
  | 'T' :: 'r' :: 'u' :: 'e' :: r => some (true, r)
  | 'F' :: 'a' :: 'l' :: 's' :: 'e' :: r => some (false, r)
  | _ => none

/-- Join printed items with the `", "` separator Python `repr` uses. -/
def joinSep : List (List Char) → List Char
  | [] => []
  | [x] => x
  | x :: xs => x ++ ',' :: ' ' :: joinSep xs

/-- Python `repr` of a list, given a printer for its elements. -/
def printPyList (pe : α → List Char) (xs : List α) : List Char :=
  '[' :: joinSep (xs.map pe) ++ [']']

/-- Parse `", "`-separated elements up to a closing `']'` (at least one
element; fuel bounds the element count). -/
def parseElems (p : List Char → Option (α × List Char)) :
    Nat → List Char → Option (List α × List Char)
  | 0, _ => none
  | f + 1, s =>
    match p s with
    | none => none
    | some (a, r) =>
      match r with
      | ']' :: r2 => some ([a], r2)
      | ',' :: ' ' :: r2 => (parseElems p f r2).map (fun q => (a :: q.1, q.2))
      | _ => none

/-- Parse a Python list literal, given a parser for its elements. -/
def parsePyList (p : List Char → Option (α × List Char)) (f : Nat)
    (s : List Char) : Option (List α × List Char) :=
  match s with
  | [] => none
  | c :: r =>
    if c = '[' then
      match r with
      | [] => none
      | c2 :: r2 => if c2 = ']' then some ([], r2) else parseElems p f r
    else none

/-- Consume an expected literal character sequence. -/
def expectChars : List Char → List Char → Option (List Char)
  | [], s => some s
  | _ :: _, [] => none
  | c :: cs, d :: ds => if d = c then expectChars cs ds else none

/-- Python `repr` of one point of the stored (closed) polygon: a
two-element list. -/
def printPoint (q : Int × Int) : List Char :=
  '[' :: printInt q.1 ++ ',' :: ' ' :: printInt q.2 ++ [']']

/-- Parse one two-element point list. -/
def parsePoint (s : List Char) : Option ((Int × Int) × List Char) :=
  match expectChars ['['] s with
  | none => none
  | some s1 =>
    match parseInt s1 with
    | none => none
    | some (x, s2) =>
      match expectChars [',', ' '] s2 with
      | none => none
      | some s3 =>
        match parseInt s3 with
        | none => none
        | some (y, s4) =>
          match expectChars [']'] s4 with
          | none => none
          | some s5 => some ((x, y), s5)

/-- Printers for the three nesting levels of a stored mask
(`tolist()` of the `(1, H, W)` bool tensor). -/
def printMask1 : List Bool → List Char := printPyList printBool

/-- Second level: a list of rows. -/
def printMask2 : List (List Bool) → List Char := printPyList printMask1

/-- Third level: the full `(1, H, W)` grid list. -/
def printMask3 : Mask3 → List Char := printPyList printMask2

/-- Parsers for the three nesting levels of a stored mask. -/
def parseMask1 (f : Nat) : List Char → Option (List Bool × List Char) :=
  parsePyList parseBool f

/-- Second level. -/
def parseMask2 (f : Nat) : List Char → Option (List (List Bool) × List Char) :=
  parsePyList (parseMask1 f) f

/-- Third level. -/
def parseMask3 (f : Nat) : List Char → Option (Mask3 × List Char) :=
  parsePyList (parseMask2 f) f

/-- Python `repr` of the stored polygon. -/
def printPolygon : Polygon → List Char := printPyList printPoint

/-- Parse the stored polygon. -/
def parsePolygon (f : Nat) : List Char → Option (Polygon × List Char) :=
  parsePyList parsePoint f

/-- The literal `{'mask': ` that opens one entry's repr. -/
def entryOpen : List Char := [lbr, sq, 'm', 'a', 's', 'k', sq, ':', ' ']

/-- The literal `, 'polygon': ` between an entry's two values. -/
def entryMid : List Char := [',', ' ', sq, 'p', 'o', 'l', 'y', 'g', 'o', 'n', sq, ':', ' ']

/-- Python `repr` of one mask-table entry, the dict
`dict(mask=..., polygon=...)` of source line 112. -/
def printEntry (e : MaskEntry) : List Char :=
  entryOpen ++ printMask3 e.mask ++ entryMid ++ printPolygon e.polygon ++ [rbr]

/-- Parse one mask-table entry. -/
def parseEntry (f : Nat) (s : List Char) : Option (MaskEntry × List Char) :=
  match expectChars entryOpen s with
  | none => none
  | some s1 =>
    match parseMask3 f s1 with
    | none => none
    | some (m, s2) =>
      match expectChars entryMid s2 with
      | none => none
      | some s3 =>
        match parsePolygon f s3 with
        | none => none
        | some (p, s4) =>
          match expectChars [rbr] s4 with
          | none => none
          | some s5 => some (MaskEntry.mk m p, s5)

/-- Python `repr` of one `index: entry` item of the dict. -/
def printKV (kv : Int × MaskEntry) : List Char :=
  printInt kv.1 ++ ':' :: ' ' :: printEntry kv.2

/-- Parse one `index: entry` item. -/
def parseKV (f : Nat) (s : List Char) : Option ((Int × MaskEntry) × List Char) :=
  match parseInt s with
  | none => none
  | some (k, s1) =>
    match expectChars [':', ' '] s1 with
    | none => none
    | some s2 =>
      match parseEntry f s2 with
      | none => none
      | some (e, s3) => some ((k, e), s3)

/-- Parse `", "`-separated dict items up to the closing brace. -/
def parseKVs (f : Nat) : Nat → List Char → Option (MaskTable × List Char)
  | 0, _ => none
  | g + 1, s =>
    match parseKV f s with
    | none => none
    | some (kv, r) =>
      match r with
      | [] => none
      | c :: r2 =>
        if c = rbr then some ([kv], r2)
        else if c = ',' then
          match r2 with
          | ' ' :: r3 => (parseKVs f g r3).map (fun q => (kv :: q.1, q.2))
          | _ => none
        else none

/-- Parse a whole dict literal `{...}`. -/
def parseTable (f : Nat) (s : List Char) : Option (MaskTable × List Char) :=
  match s with
  | [] => none
  | c :: r =>
    if c = lbr then
      match r with
      | [] => none
      | c2 :: r2 => if c2 = rbr then some ([], r2) else parseKVs f f r
    else none

/-- The serialized mask table: the Python `repr` of the `outputs` dict,
as the gradio `Textbox` between Stage A and Stage B carries it. -/
def serializeMaskTable (t : MaskTable) : List Char :=
  lbr :: joinSep (t.map printKV) ++ [rbr]

/-- Deserialization of the mask table text: literal parsing of the
serializer's image (the behaviour of the source's `eval` on well-formed
wire text; `none` models the raised exception on text that is not a
well-formed table literal — see the module comment above). -/
def deserializeMaskTable (s : List Char) : Option MaskTable :=
  match parseTable s.length s with
  | some (t, []) => some t
  | _ => none

/-- Python `int(str)` (source line 134, `int(index)`): the whole string
must be a decimal integer, else a `ValueError` is raised (`none`). -/
def pyInt (s : List Char) : Option Int :=
  match parseInt s with
  | some (k, []) => some k
  | _ => none

/-! ### Round trip of the wire format

The lemmas below mirror, level by level, that parsing the printed form
of a value recovers the value exactly and leaves the suffix untouched:
the formal content of "`eval` of the serializer's output rebuilds the
dict". -/

theorem expectChars_self (pat s : List Char) :
    expectChars pat (pat ++ s) = some s := by
  induction pat with
  | nil => rfl
  | cons c cs ih => simp [expectChars, ih]

theorem parseBool_printBool (b : Bool) (r : List Char) :
    parseBool (printBool b ++ r) = some (b, r) := by
  cases b <;> rfl

theorem joinSep_cons_head {x : List Char} {xs : List (List Char)} :
    joinSep (x :: xs) = x ++ (joinSep (x :: xs)).drop x.length := by
  cases xs with
  | nil => simp [joinSep]
  | cons y ys => simp [joinSep]

theorem joinSep_mem_length {l : List Char} {ls : List (List Char)}
    (h : l ∈ ls) : l.length ≤ (joinSep ls).length := by
  induction ls with
  | nil => simp at h
  | cons x xs ih =>
    cases xs with
    | nil =>
      simp at h
      simp [joinSep, h]
    | cons y ys =>
      rcases List.mem_cons.mp h with rfl | hmem
      · simp [joinSep]
      · have := ih hmem
        simp only [joinSep, List.length_append, List.length_cons]
        omega

theorem joinSep_count_length {ls : List (List Char)}
    (h : ∀ l ∈ ls, l ≠ []) : ls.length ≤ (joinSep ls).length := by
  induction ls with
  | nil => simp
  | cons x xs ih =>
    have hx : x ≠ [] := h x (by simp)
    have hx1 : 1 ≤ x.length := by
      cases x with
      | nil => exact absurd rfl hx
      | cons _ _ => simp
    cases xs with
    | nil => simpa [joinSep] using hx1
    | cons y ys =>
      have := ih (fun l hl => h l (List.mem_cons_of_mem x hl))
      simp only [joinSep, List.length_append, List.length_cons] at *
      omega

/-- Elements round-trip through `parseElems` (the body of a nonempty
list literal, up to its closing bracket). -/
theorem parseElems_round {α : Type} (p : List Char → Option (α × List Char))
    (pe : α → List Char) (xs : List α) (f : Nat)
    (hf : xs.length ≤ f) (hne : xs ≠ [])
    (H : ∀ a ∈ xs, ∀ r, notDigitStart r → p (pe a ++ r) = some (a, r))
    (rest : List Char) :
    parseElems p f (joinSep (xs.map pe) ++ ']' :: rest) = some (xs, rest) := by
  induction xs generalizing f rest with
  | nil => exact absurd rfl hne
  | cons a xs2 ih =>
    cases f with
    | zero => simp at hf
    | succ f =>
      cases xs2 with
      | nil =>
        have hp := H a (by simp) (']' :: rest) (by
          show isDigitCh ']' = false
          decide)
        simp only [List.map_cons, List.map_nil, joinSep]
        simp [parseElems, hp]
      | cons b xs3 =>
        have hp := H a (by simp)
          (',' :: ' ' :: (joinSep ((b :: xs3).map pe) ++ ']' :: rest)) (by
          show isDigitCh ',' = false
          decide)
        have hrec := ih f (by simpa using hf) (by simp)
          (fun x hx r hr => H x (List.mem_cons_of_mem a hx) r hr) rest
        simp only [List.map_cons] at hp hrec ⊢
        simp only [joinSep, List.append_assoc, List.cons_append]
        simp [parseElems, hp, hrec]

/-- A Python list literal round-trips through `parsePyList`. -/
theorem parsePyList_round {α : Type} (p : List Char → Option (α × List Char))
    (pe : α → List Char) (xs : List α) (f : Nat)
    (hf : xs.length ≤ f)
    (Hhead : ∀ a ∈ xs, ∃ c cs, pe a = c :: cs ∧ ¬c = ']')
    (H : ∀ a ∈ xs, ∀ r, notDigitStart r → p (pe a ++ r) = some (a, r))
    (rest : List Char) :
    parsePyList p f (printPyList pe xs ++ rest) = some (xs, rest) := by
  cases xs with
  | nil => simp [printPyList, joinSep, parsePyList]
  | cons a xs2 =>
    obtain ⟨c, cs, hpe, hc⟩ := Hhead a (by simp)
    have hJ : ∃ t, joinSep (pe a :: xs2.map pe) = c :: t := by
      cases xs2 with
      | nil => exact ⟨cs, by simp [joinSep, hpe]⟩
      | cons b xs3 =>
        refine ⟨cs ++ ',' :: ' ' :: joinSep (pe b :: xs3.map pe), ?_⟩
        simp [joinSep, hpe]
    obtain ⟨t, hJ⟩ := hJ
    have hshape : printPyList pe (a :: xs2) ++ rest =
        '[' :: c :: (t ++ ']' :: rest) := by
      simp [printPyList, hJ]
    rw [hshape]
    have hback : c :: (t ++ ']' :: rest) =
        joinSep ((a :: xs2).map pe) ++ ']' :: rest := by
      simp [hJ]
    simp only [parsePyList, if_pos rfl, if_neg hc]
    rw [hback]
    exact parseElems_round p pe (a :: xs2) f hf (by simp) H rest

theorem parsePoint_round (q : Int × Int) (r : List Char) :
    parsePoint (printPoint q ++ r) = some (q, r) := by
  have h1 := parseInt_printInt q.1 (',' :: ' ' :: (printInt q.2 ++ ']' :: r)) (by
    show isDigitCh ',' = false
    decide)
  have h2 := parseInt_printInt q.2 (']' :: r) (by
    show isDigitCh ']' = false
    decide)
  simp only [printPoint, List.cons_append, List.append_assoc] at h1 h2 ⊢
  simp [parsePoint, expectChars, h1, h2]

theorem parseMask1_round (row : List Bool) (f : Nat) (hf : row.length ≤ f)
    (r : List Char) : parseMask1 f (printMask1 row ++ r) = some (row, r) :=
  parsePyList_round parseBool printBool row f hf
    (fun b _ => by cases b <;> exact ⟨_, _, rfl, by decide⟩)
    (fun b _ r _ => parseBool_printBool b r) r

theorem parseMask2_round (g : List (List Bool)) (f : Nat)
    (hf : g.length ≤ f) (hrow : ∀ row ∈ g, row.length ≤ f)
    (r : List Char) : parseMask2 f (printMask2 g ++ r) = some (g, r) :=
  parsePyList_round (parseMask1 f) printMask1 g f hf
    (fun row _ => ⟨'[', _, rfl, by decide⟩)
    (fun row hm r _ => parseMask1_round row f (hrow row hm) r) r

theorem parseMask3_round (m : Mask3) (f : Nat)
    (hf : m.length ≤ f) (hg : ∀ g ∈ m, g.length ≤ f)
    (hrow : ∀ g ∈ m, ∀ row ∈ g, row.length ≤ f)
    (r : List Char) : parseMask3 f (printMask3 m ++ r) = some (m, r) :=
  parsePyList_round (parseMask2 f) printMask2 m f hf
    (fun g _ => ⟨'[', _, rfl, by decide⟩)
    (fun g hm r _ => parseMask2_round g f (hg g hm) (hrow g hm) r) r

theorem parsePolygon_round (p : Polygon) (f : Nat) (hf : p.length ≤ f)
    (r : List Char) : parsePolygon f (printPolygon p ++ r) = some (p, r) :=
  parsePyList_round parsePoint printPoint p f hf
    (fun q _ => ⟨'[', _, rfl, by decide⟩)
    (fun q _ r _ => parsePoint_round q r) r

theorem parseEntry_round (e : MaskEntry) (f : Nat)
    (hf : e.mask.length ≤ f) (hg : ∀ g ∈ e.mask, g.length ≤ f)
    (hrow : ∀ g ∈ e.mask, ∀ row ∈ g, row.length ≤ f)
    (hp : e.polygon.length ≤ f)
    (r : List Char) : parseEntry f (printEntry e ++ r) = some (e, r) := by
  have hm := parseMask3_round e.mask f hf hg hrow
    (entryMid ++ (printPolygon e.polygon ++ rbr :: r))
  have hpol := parsePolygon_round e.polygon f hp (rbr :: r)
  simp only [printEntry, List.append_assoc, List.cons_append] at hm hpol ⊢
  simp [parseEntry, expectChars_self, hm, hpol, expectChars]

theorem parseKV_round (kv : Int × MaskEntry) (f : Nat)
    (hf : kv.2.mask.length ≤ f) (hg : ∀ g ∈ kv.2.mask, g.length ≤ f)
    (hrow : ∀ g ∈ kv.2.mask, ∀ row ∈ g, row.length ≤ f)
    (hp : kv.2.polygon.length ≤ f)
    (r : List Char) : parseKV f (printKV kv ++ r) = some (kv, r) := by
  have hk := parseInt_printInt kv.1 (':' :: ' ' :: (printEntry kv.2 ++ r)) (by
    show isDigitCh ':' = false
    decide)
  have he := parseEntry_round kv.2 f hf hg hrow hp r
  simp only [printKV, List.append_assoc, List.cons_append] at hk he ⊢
  simp [parseKV, hk, expectChars, he]

theorem parseKVs_round (t : MaskTable) (f g : Nat)
    (hg : t.length ≤ g) (hne : t ≠ [])
    (H : ∀ kv ∈ t, ∀ r, notDigitStart r → parseKV f (printKV kv ++ r) = some (kv, r))
    (rest : List Char) :
    parseKVs f g (joinSep (t.map printKV) ++ rbr :: rest) = some (t, rest) := by
  induction t generalizing g rest with
  | nil => exact absurd rfl hne
  | cons kv t2 ih =>
    cases g with
    | zero => simp at hg
    | succ g =>
      cases t2 with
      | nil =>
        have hp := H kv (by simp) (rbr :: rest) (by
          show isDigitCh rbr = false
          decide)
        simp only [List.map_cons, List.map_nil, joinSep]
        simp [parseKVs, hp]
      | cons kv2 t3 =>
        have hp := H kv (by simp)
          (',' :: ' ' :: (joinSep (printKV kv2 :: t3.map printKV) ++ rbr :: rest)) (by
          show isDigitCh ',' = false
          decide)
        have hrec := ih g (by simpa using hg) (by simp)
          (fun x hx r hr => H x (List.mem_cons_of_mem kv hx) r hr) rest
        simp only [List.map_cons] at hp hrec ⊢
        simp only [joinSep, List.append_assoc, List.cons_append]
        simp [parseKVs, hp, hrec, show ¬(',' = rbr) by decide]

theorem printInt_head (k : Int) :
    ∃ c cs, printInt k = c :: cs ∧ (isDigitCh c = true ∨ c = '-') := by
  by_cases hk : k < 0
  · exact ⟨'-', printNat k.natAbs, by simp [printInt, hk], Or.inr rfl⟩
  · obtain ⟨c, cs, hpn, hc⟩ := printNat_head_digit k.natAbs
    exact ⟨c, cs, by simp [printInt, hk, hpn], Or.inl hc⟩

theorem printKV_head (kv : Int × MaskEntry) :
    ∃ c cs, printKV kv = c :: cs ∧ ¬c = rbr := by
  obtain ⟨c, cs, hpi, hc⟩ := printInt_head kv.1
  refine ⟨c, cs ++ ':' :: ' ' :: printEntry kv.2, by simp [printKV, hpi], ?_⟩
  intro hcr
  rcases hc with hd | hm
  · rw [hcr] at hd
    exact absurd hd (by decide)
  · rw [hm] at hcr
    exact absurd hcr (by decide)

theorem parseTable_round (t : MaskTable) (f : Nat)
    (hf : t.length ≤ f)
    (H : ∀ kv ∈ t, ∀ r, notDigitStart r → parseKV f (printKV kv ++ r) = some (kv, r))
    (rest : List Char) :
    parseTable f (serializeMaskTable t ++ rest) = some (t, rest) := by
  cases t with
  | nil => simp [serializeMaskTable, joinSep, parseTable]
  | cons kv t2 =>
    obtain ⟨c, cs, hpe, hc⟩ := printKV_head kv
    have hJ : ∃ u, joinSep (printKV kv :: t2.map printKV) = c :: u := by
      cases t2 with
      | nil => exact ⟨cs, by simp [joinSep, hpe]⟩
      | cons kv2 t3 =>
        refine ⟨cs ++ ',' :: ' ' :: joinSep (printKV kv2 :: t3.map printKV), ?_⟩
        simp [joinSep, hpe]
    obtain ⟨u, hJ⟩ := hJ
    have hshape : serializeMaskTable (kv :: t2) ++ rest =
        lbr :: c :: (u ++ rbr :: rest) := by
      simp [serializeMaskTable, hJ]
    rw [hshape]
    have hback : c :: (u ++ rbr :: rest) =
        joinSep ((kv :: t2).map printKV) ++ rbr :: rest := by
      simp [hJ]
    simp only [parseTable, if_pos rfl, if_neg hc]
    rw [hback]
    exact parseKVs_round (kv :: t2) f f hf (by simp) H rest

theorem printInt_ne_nil (k : Int) : printInt k ≠ [] := by
  obtain ⟨c, cs, h, -⟩ := printInt_head k
  simp [h]

theorem printKV_ne_nil (kv : Int × MaskEntry) : printKV kv ≠ [] := by
  obtain ⟨c, cs, h, -⟩ := printKV_head kv
  simp [h]

theorem printPyList_count {α : Type} (pe : α → List Char) (xs : List α)
    (h : ∀ a ∈ xs, pe a ≠ []) : xs.length ≤ (printPyList pe xs).length := by
  have := @joinSep_count_length (xs.map pe) (by
    intro l hl
    obtain ⟨a, ha, rfl⟩ := List.mem_map.mp hl
    exact h a ha)
  simp only [printPyList, List.length_cons, List.length_append,
    List.length_map] at *
  omega

theorem printPyList_mem {α : Type} (pe : α → List Char) (xs : List α)
    {a : α} (ha : a ∈ xs) : (pe a).length ≤ (printPyList pe xs).length := by
  have := joinSep_mem_length (List.mem_map_of_mem pe ha)
  simp only [printPyList, List.length_cons, List.length_append] at *
  omega

theorem printBool_ne_nil (b : Bool) : printBool b ≠ [] := by
  cases b <;> simp [printBool]

theorem printPyList_ne_nil {α : Type} (pe : α → List Char) (xs : List α) :
    printPyList pe xs ≠ [] := by
  simp [printPyList]

/-- The serialization used between Stage A and Stage B is lossless: the
text the gradio box carries parses back to exactly the table Stage A
built — masks and polygons bit-identical. -/
theorem deserialize_serialize (t : MaskTable) :
    deserializeMaskTable (serializeMaskTable t) = some t := by
  set f := (serializeMaskTable t).length with hfdef
  have hser : (serializeMaskTable t).length =
      (joinSep (t.map printKV)).length + 2 := by
    simp [serializeMaskTable]
  have hkvlen : ∀ kv ∈ t, (printKV kv).length ≤ f := by
    intro kv hkv
    have := joinSep_mem_length (List.mem_map_of_mem printKV hkv)
    omega
  have hcount : t.length ≤ f := by
    have := @joinSep_count_length (t.map printKV) (by
      intro l hl
      obtain ⟨kv, hkv, rfl⟩ := List.mem_map.mp hl
      exact printKV_ne_nil kv)
    simp only [List.length_map] at this
    omega
  have hentrylen : ∀ kv ∈ t, (printEntry kv.2).length ≤ f := by
    intro kv hkv
    have h1 := hkvlen kv hkv
    simp only [printKV, List.length_append, List.length_cons] at h1
    omega
  have hmask3len : ∀ kv ∈ t, (printMask3 kv.2.mask).length ≤ f := by
    intro kv hkv
    have h1 := hentrylen kv hkv
    simp only [printEntry, List.length_append, List.length_cons] at h1
    omega
  have hpolylen : ∀ kv ∈ t, (printPolygon kv.2.polygon).length ≤ f := by
    intro kv hkv
    have h1 := hentrylen kv hkv
    simp only [printEntry, List.length_append, List.length_cons] at h1
    omega
  have H : ∀ kv ∈ t, ∀ r, notDigitStart r →
      parseKV f (printKV kv ++ r) = some (kv, r) := by
    intro kv hkv r _
    refine parseKV_round kv f ?_ ?_ ?_ ?_ r
    · calc kv.2.mask.length ≤ (printMask3 kv.2.mask).length :=
            printPyList_count _ _ (fun g _ => printPyList_ne_nil _ _)
        _ ≤ f := hmask3len kv hkv
    · intro g hgm
      calc g.length ≤ (printMask2 g).length :=
            printPyList_count _ _ (fun row _ => printPyList_ne_nil _ _)
        _ ≤ (printMask3 kv.2.mask).length := printPyList_mem _ _ hgm
        _ ≤ f := hmask3len kv hkv
    · intro g hgm row hrg
      calc row.length ≤ (printMask1 row).length :=
            printPyList_count _ _ (fun b _ => printBool_ne_nil b)
        _ ≤ (printMask2 g).length := printPyList_mem _ _ hrg
        _ ≤ (printMask3 kv.2.mask).length := printPyList_mem _ _ hgm
        _ ≤ f := hmask3len kv hkv
    · calc kv.2.polygon.length ≤ (printPolygon kv.2.polygon).length :=
            printPyList_count _ _ (fun q _ => by simp [printPoint])
        _ ≤ f := hpolylen kv hkv
  have := parseTable_round t f hcount H []
  rw [List.append_nil] at this
  simp [deserializeMaskTable, this]

/-! ## Stage A: `run_mmocr_sam` (source lines 51-119)

The MMOCR inferencer, the SAM predictor and the matplotlib canvas are
external collaborators; they enter as the parameters `mmocr`,
`samTransform`/`samSegment` and the `renderFigure` model below. -/

/-- Python `zip` over four sequences: index-aligned, truncating to the
shortest (source line 96). -/
def zip4 {α β γ δ : Type} (a : List α) (b : List β) (c : List γ) (d : List δ) :
    List (α × β × γ × δ) :=
  (a.zip (b.zip (c.zip d))).map (fun q => (q.1, q.2.1, q.2.2.1, q.2.2.2))

/-- Python `enumerate` (source line 95). -/
def enumL {α : Type} (l : List α) : List (Nat × α) :=
  (List.range l.length).zip l

/-- Ordered concatenation of chunks. -/
def concatAll {α : Type} : List (List α) → List α
  | [] => []
  | l :: ls => l ++ concatAll ls

/-- One drawing primitive placed on the plotting figure: the translucent
mask of `show_mask` (line 97), the dashed polygon outline (line 101), or
the `idx:…` text label (lines 103-110). -/
inductive Overlay where
  | maskOv (m : Mask3)
  | polylineOv (pts : Polygon)
  | textOv (x y : Int) (s : List Char)

/-- Put one pixel. -/
def setPix (im : Img) (a b : Nat) (p : Pix) : Img :=
  ⟨im.width, im.height, fun x y => if x = a ∧ y = b then p else im.px x y⟩

/-- 60%-alpha blend of an overlay colour onto a base pixel, integer
arithmetic (the `0.6` alpha of `show_mask`, source lines 43-45). -/
def blendPix (base ov : Pix) : Pix :=
  ⟨(2 * base.c0 + 3 * ov.c0) / 5, (2 * base.c1 + 3 * ov.c1) / 5,
   (2 * base.c2 + 3 * ov.c2) / 5⟩

/-- Modelled: rasterization of one overlay onto the figure (the external
matplotlib drawing of lines 97-110).  A mask overlay alpha-blends a
fixed colour over the mask's footprint (the random per-mask colour of
`show_mask` is cosmetic per the spec); the vector overlays (dashed
polygon, text label) are modelled as marks at their anchor points. -/
def applyOverlay (im : Img) : Overlay → Img
  | .maskOv m =>
    ⟨im.width, im.height, fun x y =>
      if maskAt (m.headD []) x y then blendPix (im.px x y) ⟨30, 144, 255⟩
      else im.px x y⟩
  | .polylineOv pts =>
    pts.foldl (fun acc q => setPix acc q.1.toNat q.2.toNat ⟨0, 0, 255⟩) im
  | .textOv x y _ => setPix im x.toNat y.toNat ⟨255, 255, 0⟩

/-- Modelled: the matplotlib figure readback (source lines 87-118:
`plt.imshow` of the RGB image, the per-region drawing calls, then
`np.array(plt.gcf().canvas.renderer._renderer)`).  The canvas readback is
modelled as the base image with the overlays composited in drawing
order; the figure-canvas resampling, padding and dpi effects of the
external library are abstracted away (the spec's design note directs a
reimplementation to draw directly onto the pixel buffer). -/
def renderFigure (base : Img) (ovs : List Overlay) : Img :=
  ovs.foldl applyOverlay base

/-- The label drawn near a region's bounding box:
`f'idx:{idx}, {rec_text}'` (source line 103). -/
def stageALabel (idx : Nat) (t : List Char) : List Char :=
  'i' :: 'd' :: 'x' :: ':' :: printNat idx ++ ',' :: ' ' :: t

/-- One line of the detection summary: `f'{idx}:{rec_text}' + '\n'`
(source line 111). -/
def stageALine (idx : Nat) (t : List Char) : List Char :=
  printNat idx ++ ':' :: t ++ ['\n']

/-- `enumerate(zip(masks, rec_texts, det_polygons, det_bboxes))`
(source lines 95-96). -/
def stageAItems (masks : List Mask3) (texts : List (List Char))
    (polys : List Polygon) (bboxes : List BBox) :
    List (Nat × Mask3 × List Char × Polygon × BBox) :=
  enumL (zip4 masks texts polys bboxes)

/-- Stage A, `run_mmocr_sam(img)` (source lines 51-119).  External
collaborators:
* `mmocr`: the MMOCR inferencer (line 71), returning
  `(rec_texts, det_polygons)`;
* `samTransform`: `sam_predictor.transform.apply_boxes_torch` (lines
  76-77), a per-box coordinate map;
* `samSegment`: `set_image` + `predict_torch` (lines 79-85), one
  `(1, H, W)` mask per transformed box.

Returns `(annotated preview, summary string, mask table)`; the
interaction surface serializes the table with `serializeMaskTable`. -/
def run_mmocr_sam (mmocr : Img → List (List Char) × List Polygon)
    (samTransform : BBox → BBox)
    (samSegment : Img → List BBox → List Mask3)
    (img : Img) : Img × List Char × MaskTable :=
  let rec_texts := (mmocr img).1
  let det_polygons := (mmocr img).2
  let det_bboxes := det_polygons.map poly2bbox
  let transformed_boxes := det_bboxes.map samTransform
  let masks := samSegment img transformed_boxes
  let items := stageAItems masks rec_texts det_polygons det_bboxes
  let overlays := concatAll (items.map (fun it =>
    [Overlay.maskOv it.2.1,
     Overlay.polylineOv (closePoly it.2.2.2.1),
     Overlay.textOv it.2.2.2.2.1 it.2.2.2.2.2.1 (stageALabel it.1 it.2.2.1)]))
  let output_str := items.foldl (fun s it => s ++ stageALine it.1 it.2.2.1) []
  let outputs := items.map (fun it =>
    ((it.1 : Int), MaskEntry.mk it.2.1 (closePoly it.2.2.2.1)))
  let preview := cvtColor (renderFigure (cvtColor img) overlays)
  (preview, output_str, outputs)

/-! ## Stage B: `run_downstream` (source lines 122-156) -/

/-- The failure points of Stage B, named after the Python exceptions the
source lets escape: `evalError` — `eval(mask_results)` raises on text
that is not a well-formed table literal (line 133; the spec's
MalformedMaskTableError names this event, though the source's `eval`
does not reject gracefully — claim C2); `valueError` — `int(index)`
raises (line 134); `keyError` — the dict lookup at a missing index
raises (line 134; the spec's SelectionError names this event);
`indexError` — `['mask'][0]` on an empty mask list raises (line 134). -/
inductive RunError where
  | evalError
  | valueError
  | keyError
  | indexError
deriving DecidableEq, Repr

/-- Lines 133-134 of the source: deserialize the mask table, convert the
index, look the entry up, and take `['mask'][0]` — the first (and only)
plane of the stored `(1, H, W)` mask. -/
def selectMask (mask_results index : List Char) :
    Except RunError (List (List Bool)) :=
  match deserializeMaskTable mask_results with
  | none => .error .evalError
  | some tbl =>
    match pyInt index with
    | none => .error .valueError
    | some k =>
      match lookupTable k tbl with
      | none => .error .keyError
      | some entry =>
        match entry.mask with
        | [] => .error .indexError
        | m0 :: _ => .ok m0

/-- Lines 136-151: binarize and stack the selected mask, resize it to
the generator's 512×512 working canvas, run the diffusion pipe
(`prompt`, `num_inference_steps=20`, the internally fixed seed 0 of
`torch.manual_seed(0)` at line 143), restrict the generated image to the
mask at the working resolution, and resize the masked patch back to the
original size `(w, h)`. -/
def maskedPatch (pipe : List Char → Nat → Nat → Img → Img)
    (prompt : List Char) (m0 : List (List Bool)) (w h : Nat) : Img :=
  let mask := binMask m0
  let mask512 := resize 512 512 mask
  let diff := pipe prompt 20 0 mask512
  resize w h (mulImages diff mask512)

/-- Lines 140-155: convert the original image to RGB, add the masked
patch elementwise (uint8, wrapping), and convert back to BGR. -/
def inpaintComposite (pipe : List Char → Nat → Nat → Img → Img)
    (img : Img) (prompt : List Char) (m0 : List (List Bool)) : Img :=
  let rgb := cvtColor img
  cvtColor (addImages rgb (maskedPatch pipe prompt m0 rgb.width rgb.height))

/-- Stage B, `run_downstream(img, mask_results, index, prompt)` (source
lines 122-156).  `pipe` is the external diffusion pipeline (line 144),
a function of `(prompt, num_inference_steps, seed, control image)`. -/
def run_downstream (pipe : List Char → Nat → Nat → Img → Img)
    (img : Img) (mask_results index prompt : List Char) :
    Except RunError Img :=
  match selectMask mask_results index with
  | .error e => .error e
  | .ok m0 => .ok (inpaintComposite pipe img prompt m0)

/-! ## The interaction surface (source lines 159-190) -/

/-- The gradio components of the demo (lines 164-172): the uploaded
image, the displayed output image, and the four text boxes. -/
structure DemoState where
  input_image : Img
  output_image : Img
  sam_results : List Char
  mask_results : List Char
  text_index : List Char
  prompt : List Char

/-- The `mmocr_sam.click` wiring (lines 181-184): Stage A consumes
`input_image` and writes `output_image`, `sam_results` and
`mask_results` (the table, serialized into the text box). -/
def mmocrSamClick (mmocr : Img → List (List Char) × List Polygon)
    (samTransform : BBox → BBox)
    (samSegment : Img → List BBox → List Mask3)
    (s : DemoState) : DemoState :=
  let r := run_mmocr_sam mmocr samTransform samSegment s.input_image
  { s with
    output_image := r.1
    sam_results := r.2.1
    mask_results := serializeMaskTable r.2.2 }

/-- The `downstream.click` wiring (lines 185-188): Stage B consumes
`input_image` (the ORIGINAL upload, not the annotated `output_image`),
`mask_results`, `text_index` and `prompt`, and its result replaces
`output_image`. -/
def downstreamClick (pipe : List Char → Nat → Nat → Img → Img)
    (s : DemoState) : Except RunError Img :=
  run_downstream pipe s.input_image s.mask_results s.text_index s.prompt

/-! ## Helper lemmas about the embedded operations -/

/-- Channel reversal of one pixel (the effect of `cv2.cvtColor` between
BGR and RGB). -/
def swapPix (p : Pix) : Pix := ⟨p.c2, p.c1, p.c0⟩

instance {ε α : Type} [DecidableEq ε] [DecidableEq α] :
    DecidableEq (Except ε α) := fun a b =>
  match a, b with
  | .error e, .error f =>
    if h : e = f then .isTrue (by rw [h]) else .isFalse (by simp [h])
  | .ok x, .ok y =>
    if h : x = y then .isTrue (by rw [h]) else .isFalse (by simp [h])
  | .error _, .ok _ => .isFalse (by simp)
  | .ok _, .error _ => .isFalse (by simp)

theorem cvtColor_px (i : Img) (x y : Nat) :
    (cvtColor i).px x y = swapPix (i.px x y) := rfl

theorem cvtColor_cvtColor (i : Img) : cvtColor (cvtColor i) = i := rfl

/-- Pixel formula of the Stage B composite: in the BGR frame of the
returned image, every pixel is the wrapping uint8 sum of the original
pixel and the (channel-reversed, as the patch lives in the RGB frame)
masked generated patch. -/
theorem inpaintComposite_px (pipe : List Char → Nat → Nat → Img → Img)
    (img : Img) (prompt : List Char) (m0 : List (List Bool)) (x y : Nat) :
    (inpaintComposite pipe img prompt m0).px x y =
      pixAdd8 (img.px x y)
        (swapPix ((maskedPatch pipe prompt m0 img.width img.height).px x y)) := rfl

theorem inpaintComposite_dims (pipe : List Char → Nat → Nat → Img → Img)
    (img : Img) (prompt : List Char) (m0 : List (List Bool)) :
    (inpaintComposite pipe img prompt m0).width = img.width ∧
    (inpaintComposite pipe img prompt m0).height = img.height := ⟨rfl, rfl⟩

/-- Every channel of the masked patch is already reduced modulo 256
(numpy uint8). -/
theorem maskedPatch_lt (pipe : List Char → Nat → Nat → Img → Img)
    (prompt : List Char) (m0 : List (List Bool)) (w h x y : Nat) :
    ((maskedPatch pipe prompt m0 w h).px x y).c0 < 256 ∧
    ((maskedPatch pipe prompt m0 w h).px x y).c1 < 256 ∧
    ((maskedPatch pipe prompt m0 w h).px x y).c2 < 256 := by
  refine ⟨?_, ?_, ?_⟩ <;>
    exact Nat.mod_lt _ (by norm_num)

theorem run_downstream_ok (pipe : List Char → Nat → Nat → Img → Img)
    (img : Img) (mr idx prompt : List Char) (m0 : List (List Bool))
    (hsel : selectMask mr idx = .ok m0) :
    run_downstream pipe img mr idx prompt =
      .ok (inpaintComposite pipe img prompt m0) := by
  simp [run_downstream, hsel]

/-- Pixels where the (resized-back) masked patch vanishes are carried
over from the original image unchanged. -/
theorem composite_unchanged_of_patch_zero
    (pipe : List Char → Nat → Nat → Img → Img)
    (img : Img) (prompt : List Char) (m0 : List (List Bool)) (x y : Nat)
    (hvalid : (img.px x y).c0 < 256 ∧ (img.px x y).c1 < 256 ∧
      (img.px x y).c2 < 256)
    (hp : (maskedPatch pipe prompt m0 img.width img.height).px x y = ⟨0, 0, 0⟩) :
    (inpaintComposite pipe img prompt m0).px x y = img.px x y := by
  rw [inpaintComposite_px, hp]
  obtain ⟨h0, h1, h2⟩ := hvalid
  simp only [pixAdd8, swapPix, Nat.add_zero, Nat.mod_eq_of_lt h0,
    Nat.mod_eq_of_lt h1, Nat.mod_eq_of_lt h2]

/-! ## Concrete fixtures for witnesses and counterexamples -/

/-- A 3×3 mask grid, `true` only at the origin. -/
def cexMask : List (List Bool) :=
  [[true, false, false], [false, false, false], [false, false, false]]

/-- One mask-table entry over `cexMask`. -/
def cexEntry : MaskEntry := ⟨[cexMask], [(0, 0), (2, 0), (2, 2), (0, 0)]⟩

/-- A one-entry mask table at index 0. -/
def cexTable : MaskTable := [(0, cexEntry)]

/-- Its serialized wire text. -/
def cexWire : List Char := serializeMaskTable cexTable

/-- A constant 3×3 input image. -/
def cexImg : Img := ⟨3, 3, fun _ _ => ⟨10, 10, 10⟩⟩

/-- A 512×512 constant input image. -/
def cexImg512 : Img := ⟨512, 512, fun _ _ => ⟨10, 10, 10⟩⟩

/-- A 512×512 mask grid, `true` only at the origin. -/
def cexMask512 : List (List Bool) :=
  ((List.replicate 512 false).set 0 true) ::
    List.replicate 511 (List.replicate 512 false)

/-- A prompt. -/
def cexPrompt : List Char := ['g', 'r', 'a', 'f', 'f', 'i', 't', 'i']

/-- The index text `"0"`. -/
def idx0 : List Char := ['0']

/-- A diffusion pipe producing a constant image of value 7 at the
512×512 working resolution. -/
def constPipe7 : List Char → Nat → Nat → Img → Img :=
  fun _ _ _ _ => ⟨512, 512, fun _ _ => ⟨7, 7, 7⟩⟩

/-- A diffusion pipe producing a constant image of value 250 (forces the
uint8 sum to wrap). -/
def constPipe250 : List Char → Nat → Nat → Img → Img :=
  fun _ _ _ _ => ⟨512, 512, fun _ _ => ⟨250, 250, 250⟩⟩

/-- A diffusion pipe that renders its seed argument into every pixel:
its output at seed 0 is black, at seed 1 it is not. -/
def seedProbe : List Char → Nat → Nat → Img → Img :=
  fun _ _ s _ => ⟨512, 512, fun _ _ => ⟨s, s, s⟩⟩

/-- The all-black constant pipe (what `seedProbe` collapses to at
seed 0). -/
def zeroPipe : List Char → Nat → Nat → Img → Img :=
  fun _ _ _ _ => ⟨512, 512, fun _ _ => ⟨0, 0, 0⟩⟩

theorem cexImg_valid (x y : Nat) :
    (cexImg.px x y).c0 < 256 ∧ (cexImg.px x y).c1 < 256 ∧
    (cexImg.px x y).c2 < 256 := by
  refine ⟨?_, ?_, ?_⟩ <;> norm_num [cexImg]

/-- Pointwise reading of the masked patch: target pixel `(x, y)` of the
resized-back patch samples the uint8 product of the generated image and
the 512×512-resized mask. -/
theorem maskedPatch_px (pipe : List Char → Nat → Nat → Img → Img)
    (prompt : List Char) (m0 : List (List Bool)) (w h x y : Nat) :
    (maskedPatch pipe prompt m0 w h).px x y =
      pixMul8
        ((pipe prompt 20 0 (resize 512 512 (binMask m0))).px
          (x * (pipe prompt 20 0 (resize 512 512 (binMask m0))).width / w)
          (y * (pipe prompt 20 0 (resize 512 512 (binMask m0))).height / h))
        ((resize 512 512 (binMask m0)).px
          (x * (pipe prompt 20 0 (resize 512 512 (binMask m0))).width / w)
          (y * (pipe prompt 20 0 (resize 512 512 (binMask m0))).height / h)) := rfl

/-- C1, amended.  For a successful Stage B run, a pixel is identical to
the original wherever the resized-back masked patch vanishes; in
particular, when the original image, the stored mask and the generated
image are all at the 512×512 working resolution (so the two resizes are
the identity), every pixel outside the selected mask's footprint is
identical to the original.  (As stated over arbitrary sizes the claim
fails: the mask is applied at 512×512 and resized back, so near the
footprint the resampling leaks generated content to outside pixels —
see the counterexample.) -/
theorem C1_outside_footprint_amended
    (pipe : List Char → Nat → Nat → Img → Img)
    (img : Img) (mr idx prompt : List Char) (m0 : List (List Bool))
    (hsel : selectMask mr idx = .ok m0)
    (hvalid : ∀ x y, (img.px x y).c0 < 256 ∧ (img.px x y).c1 < 256 ∧
      (img.px x y).c2 < 256) :
    run_downstream pipe img mr idx prompt =
      .ok (inpaintComposite pipe img prompt m0) ∧
    (∀ x y, (maskedPatch pipe prompt m0 img.width img.height).px x y = ⟨0, 0, 0⟩ →
      (inpaintComposite pipe img prompt m0).px x y = img.px x y) ∧
    (img.width = 512 → img.height = 512 →
      (binMask m0).width = 512 → (binMask m0).height = 512 →
      (pipe prompt 20 0 (resize 512 512 (binMask m0))).width = 512 →
      (pipe prompt 20 0 (resize 512 512 (binMask m0))).height = 512 →
      ∀ x y, maskAt m0 x y = false →
        (inpaintComposite pipe img prompt m0).px x y = img.px x y) := by
  refine ⟨run_downstream_ok pipe img mr idx prompt m0 hsel,
    fun x y hp =>
      composite_unchanged_of_patch_zero pipe img prompt m0 x y (hvalid x y) hp,
    fun hw hh hmw hmh hpw hph x y hfalse => ?_⟩
  apply composite_unchanged_of_patch_zero pipe img prompt m0 x y (hvalid x y)
  rw [maskedPatch_px, hpw, hph, hw, hh,
    Nat.mul_div_cancel x (by norm_num : (0:Nat) < 512),
    Nat.mul_div_cancel y (by norm_num : (0:Nat) < 512)]
  have hm : (resize 512 512 (binMask m0)).px x y = ⟨0, 0, 0⟩ := by
    simp only [resize]
    rw [hmw, hmh,
      Nat.mul_div_cancel x (by norm_num : (0:Nat) < 512),
      Nat.mul_div_cancel y (by norm_num : (0:Nat) < 512)]
    simp [binMask, hfalse]
  rw [hm]
  simp [pixMul8]

/-- C1, counterexample to the claim as stated: a successful Stage B run
on a 3×3 image whose selected mask is `true` only at the origin.  Pixel
`(1, 0)` lies outside the mask's footprint, yet the composite differs
from the original there (the mask was applied at the 512×512 working
resolution and the masked patch resized back, bleeding the generated
value into the neighbouring pixel). -/
theorem C1_outside_footprint_counterexample :
    selectMask cexWire idx0 = .ok cexMask ∧
    maskAt cexMask 1 0 = false ∧
    run_downstream constPipe7 cexImg cexWire idx0 cexPrompt =
      .ok (inpaintComposite constPipe7 cexImg cexPrompt cexMask) ∧
    (inpaintComposite constPipe7 cexImg cexPrompt cexMask).px 1 0 ≠
      cexImg.px 1 0 := by
  have hsel : selectMask cexWire idx0 = .ok cexMask := by decide
  exact ⟨hsel, by decide, run_downstream_ok _ _ _ _ _ _ hsel, by decide⟩

/-- C1, witness: the amended theorem applied at a concrete successful
run; pixel `(2, 2)` has vanishing patch and is carried over unchanged. -/
theorem C1_outside_footprint_witness :
    (maskedPatch constPipe7 cexPrompt cexMask cexImg.width cexImg.height).px 2 2 =
      ⟨0, 0, 0⟩ ∧
    run_downstream constPipe7 cexImg cexWire idx0 cexPrompt =
      .ok (inpaintComposite constPipe7 cexImg cexPrompt cexMask) ∧
    (inpaintComposite constPipe7 cexImg cexPrompt cexMask).px 2 2 =
      cexImg.px 2 2 := by
  have h := C1_outside_footprint_amended constPipe7 cexImg cexWire idx0 cexPrompt
    cexMask (by decide) cexImg_valid
  exact ⟨by decide, h.1, h.2.1 2 2 (by decide)⟩

/-- C2: the failing input `"[1,"` is not a well-formed mask-table
literal — the spec-mandated strict deserializer rejects it.  The source
instead hands the text to Python `eval` (line 133), which raises an
uncaught `SyntaxError` here (and on a well-formed malicious expression
executes it); no `MalformedMaskTableError` conversion exists in the
code. -/
theorem C2_failing_input_malformed :
    deserializeMaskTable ['[', '1', ','] = none := by decide

/-- C3: a Stage B request whose index is not a key of the deserialized
table fails with the selection error (the uncaught `KeyError` of the
dict lookup at line 134, the spec's SelectionError), produces no output
image, and that error is distinguishable from the malformed-table
failure of deserialization. -/
theorem C3_missing_index_selection_error
    (pipe : List Char → Nat → Nat → Img → Img)
    (img : Img) (mr idx prompt : List Char) (tbl : MaskTable) (k : Int)
    (hde : deserializeMaskTable mr = some tbl)
    (hidx : pyInt idx = some k)
    (hlook : lookupTable k tbl = none) :
    run_downstream pipe img mr idx prompt = .error .keyError ∧
    RunError.keyError ≠ RunError.evalError := by
  refine ⟨?_, by decide⟩
  simp [run_downstream, selectMask, hde, hidx, hlook]

/-- C3, witness: index `"7"` against the one-entry table at key 0. -/
theorem C3_missing_index_witness :
    run_downstream constPipe7 cexImg cexWire ['7'] cexPrompt =
      .error .keyError ∧
    RunError.keyError ≠ RunError.evalError :=
  C3_missing_index_selection_error constPipe7 cexImg cexWire ['7'] cexPrompt
    cexTable 7 (by decide) (by decide) (by decide)

/-- C4: the mask table Stage A produces round-trips through the
serialization used between the two stages — deserializing the
serialized table yields masks and polygons bit-identical to the
originals. -/
theorem C4_serialize_roundtrip (mmocr : Img → List (List Char) × List Polygon)
    (samTransform : BBox → BBox)
    (samSegment : Img → List BBox → List Mask3) (img : Img) :
    deserializeMaskTable (serializeMaskTable
      (run_mmocr_sam mmocr samTransform samSegment img).2.2) =
      some (run_mmocr_sam mmocr samTransform samSegment img).2.2 :=
  deserialize_serialize _

/-- C5, amended.  Stage B is reproducible without any seed agreement
between runs: its output depends on the external generator only through
seed 0 — the seed is fixed internally (`torch.manual_seed(0)`, line
143), not supplied by the caller (the caller inputs of lines 185-188
carry no seed) — and two runs whose mask-table text and index select the
same mask produce identical composites for the same image and prompt. -/
theorem C5_determinism_amended :
    (∀ (pipe1 pipe2 : List Char → Nat → Nat → Img → Img) img mr idx prompt,
      (∀ p n i, pipe1 p n 0 i = pipe2 p n 0 i) →
      run_downstream pipe1 img mr idx prompt =
        run_downstream pipe2 img mr idx prompt) ∧
    (∀ (pipe : List Char → Nat → Nat → Img → Img) img mr1 idx1 mr2 idx2 prompt,
      selectMask mr1 idx1 = selectMask mr2 idx2 →
      run_downstream pipe img mr1 idx1 prompt =
        run_downstream pipe img mr2 idx2 prompt) := by
  constructor
  · intro pipe1 pipe2 img mr idx prompt h
    cases hsel : selectMask mr idx with
    | error e => simp [run_downstream, hsel]
    | ok m0 =>
      simp only [run_downstream, hsel]
      simp only [inpaintComposite, maskedPatch]
      rw [h]
  · intro pipe img mr1 idx1 mr2 idx2 prompt h
    simp only [run_downstream, h]

/-- C5, counterexample to "the seed is caller-supplied": `seedProbe`
renders its seed argument into every generated pixel and its outputs at
seeds 0 and 1 differ, yet a full Stage B run over it leaves even the
inside-footprint pixel `(0, 0)` unchanged — the generator received the
internally fixed seed 0; no caller input of Stage B (image, mask text,
index, prompt — lines 185-188) carries a seed. -/
theorem C5_seed_counterexample :
    (seedProbe cexPrompt 20 1 (resize 512 512 (binMask cexMask))).px 0 0 =
      ⟨1, 1, 1⟩ ∧
    (seedProbe cexPrompt 20 0 (resize 512 512 (binMask cexMask))).px 0 0 =
      ⟨0, 0, 0⟩ ∧
    maskAt cexMask 0 0 = true ∧
    run_downstream seedProbe cexImg cexWire idx0 cexPrompt =
      .ok (inpaintComposite seedProbe cexImg cexPrompt cexMask) ∧
    (inpaintComposite seedProbe cexImg cexPrompt cexMask).px 0 0 =
      cexImg.px 0 0 := by
  have hsel : selectMask cexWire idx0 = .ok cexMask := by decide
  exact ⟨by decide, by decide, by decide,
    run_downstream_ok _ _ _ _ _ _ hsel, by decide⟩

/-- C5, witness: the probe pipe and the all-black pipe agree at seed 0,
so the two full runs coincide. -/
theorem C5_determinism_witness :
    run_downstream seedProbe cexImg cexWire idx0 cexPrompt =
      run_downstream zeroPipe cexImg cexWire idx0 cexPrompt :=
  C5_determinism_amended.1 seedProbe zeroPipe cexImg cexWire idx0 cexPrompt
    (fun _ _ _ => rfl)

/-- C10: the Stage B composite is the elementwise uint8 sum of the
original image and the masked generated patch: every output pixel is
`(original + patch) mod 256` channelwise (the patch read in the output's
BGR channel order), an output pixel equals the original wherever the
patch is zero, and the sum wraps (`… - 256`) whenever it exceeds 255. -/
theorem C10_uint8_wraparound
    (pipe : List Char → Nat → Nat → Img → Img)
    (img : Img) (mr idx prompt : List Char) (m0 : List (List Bool))
    (hsel : selectMask mr idx = .ok m0)
    (hvalid : ∀ x y, (img.px x y).c0 < 256 ∧ (img.px x y).c1 < 256 ∧
      (img.px x y).c2 < 256) :
    run_downstream pipe img mr idx prompt =
      .ok (inpaintComposite pipe img prompt m0) ∧
    (∀ x y, (inpaintComposite pipe img prompt m0).px x y =
      pixAdd8 (img.px x y)
        (swapPix ((maskedPatch pipe prompt m0 img.width img.height).px x y))) ∧
    (∀ x y, (maskedPatch pipe prompt m0 img.width img.height).px x y = ⟨0, 0, 0⟩ →
      (inpaintComposite pipe img prompt m0).px x y = img.px x y) ∧
    (∀ x y, 255 < (img.px x y).c0 +
        (swapPix ((maskedPatch pipe prompt m0 img.width img.height).px x y)).c0 →
      ((inpaintComposite pipe img prompt m0).px x y).c0 =
        (img.px x y).c0 +
          (swapPix ((maskedPatch pipe prompt m0 img.width img.height).px x y)).c0
          - 256) := by
  refine ⟨run_downstream_ok pipe img mr idx prompt m0 hsel, fun x y => rfl,
    fun x y hp =>
      composite_unchanged_of_patch_zero pipe img prompt m0 x y (hvalid x y) hp,
    fun x y hgt => ?_⟩
  have ha : (img.px x y).c0 < 256 := (hvalid x y).1
  have hb : (swapPix ((maskedPatch pipe prompt m0 img.width img.height).px x y)).c0
      < 256 := by
    simpa [swapPix] using
      (maskedPatch_lt pipe prompt m0 img.width img.height x y).2.2
  rw [inpaintComposite_px]
  simp only [pixAdd8]
  omega

/-- C10, witness: a generator of constant value 250 over the 10-valued
original forces the wraparound: the inside-footprint sum 260 exceeds
255 and the output channel is `260 - 256 = 4`. -/
theorem C10_uint8_witness :
    run_downstream constPipe250 cexImg cexWire idx0 cexPrompt =
      .ok (inpaintComposite constPipe250 cexImg cexPrompt cexMask) ∧
    255 < (cexImg.px 0 0).c0 +
      (swapPix ((maskedPatch constPipe250 cexPrompt cexMask
        cexImg.width cexImg.height).px 0 0)).c0 ∧
    ((inpaintComposite constPipe250 cexImg cexPrompt cexMask).px 0 0).c0 =
      (cexImg.px 0 0).c0 +
        (swapPix ((maskedPatch constPipe250 cexPrompt cexMask
          cexImg.width cexImg.height).px 0 0)).c0 - 256 := by
  have h := C10_uint8_wraparound constPipe250 cexImg cexWire idx0 cexPrompt
    cexMask (by decide) cexImg_valid
  exact ⟨h.1, by decide, h.2.2.2 0 0 (by decide)⟩

/-! ## Stage A claim machinery -/

theorem concatAll_foldl {α : Type} (f : α → List Char) (l : List α)
    (init : List Char) :
    l.foldl (fun s it => s ++ f it) init = init ++ concatAll (l.map f) := by
  induction l generalizing init with
  | nil => simp [concatAll]
  | cons a l ih => simp [concatAll, ih, List.append_assoc]

theorem getD_map {α β : Type} (f : α → β) (l : List α) (i : Nat) (d : α) :
    (l.map f).getD i (f d) = f (l.getD i d) := by
  induction l generalizing i with
  | nil => simp
  | cons a l ih =>
    cases i with
    | zero => simp
    | succ i =>
      simp only [List.map_cons, List.getD_cons_succ]
      exact ih i

theorem stageAItems_length (masks : List Mask3) (texts : List (List Char))
    (polys : List Polygon) (bboxes : List BBox)
    (hm : masks.length = polys.length) (ht : texts.length = polys.length)
    (hb : bboxes.length = polys.length) :
    (stageAItems masks texts polys bboxes).length = polys.length := by
  simp only [stageAItems, enumL, zip4, List.length_zip, List.length_map,
    List.length_range]
  omega

theorem stageAItems_getElem (masks : List Mask3) (texts : List (List Char))
    (polys : List Polygon) (bboxes : List BBox) (i : Nat)
    (hm : masks.length = polys.length) (ht : texts.length = polys.length)
    (hb : bboxes.length = polys.length)
    (hlen : (stageAItems masks texts polys bboxes).length = polys.length)
    (hi : i < polys.length) :
    (stageAItems masks texts polys bboxes)[i] =
      (i, masks[i], texts[i], polys[i], bboxes[i]) := by
  simp [stageAItems, enumL, zip4, List.getElem_zip, List.getElem_map,
    List.getElem_range]

/-- The mask table Stage A returns, written out (definitional). -/
theorem run_mmocr_sam_table (mmocr : Img → List (List Char) × List Polygon)
    (tr : BBox → BBox) (seg : Img → List BBox → List Mask3) (img : Img) :
    (run_mmocr_sam mmocr tr seg img).2.2 =
      (stageAItems (seg img (((mmocr img).2.map poly2bbox).map tr))
        (mmocr img).1 (mmocr img).2 ((mmocr img).2.map poly2bbox)).map
        (fun it => ((it.1 : Int), MaskEntry.mk it.2.1 (closePoly it.2.2.2.1))) := rfl

/-- The summary string Stage A returns, written out (definitional). -/
theorem run_mmocr_sam_summary (mmocr : Img → List (List Char) × List Polygon)
    (tr : BBox → BBox) (seg : Img → List BBox → List Mask3) (img : Img) :
    (run_mmocr_sam mmocr tr seg img).2.1 =
      (stageAItems (seg img (((mmocr img).2.map poly2bbox).map tr))
        (mmocr img).1 (mmocr img).2 ((mmocr img).2.map poly2bbox)).foldl
        (fun s it => s ++ stageALine it.1 it.2.2.1) [] := rfl

/-- C6: on an image with zero detected text regions Stage A succeeds,
returns the empty mask table and the empty summary, and its preview is
identical to the input image — no drawing is applied (under the
documented `renderFigure` model of the plotting canvas). -/
theorem C6_zero_regions (mmocr : Img → List (List Char) × List Polygon)
    (tr : BBox → BBox) (seg : Img → List BBox → List Mask3) (img : Img)
    (h : mmocr img = ([], [])) :
    run_mmocr_sam mmocr tr seg img = (img, [], []) := by
  simp [run_mmocr_sam, h, stageAItems, zip4, enumL, concatAll, renderFigure,
    cvtColor_cvtColor]

/-- C6, witness: a detector finding nothing on the concrete 3×3 image. -/
theorem C6_zero_regions_witness :
    run_mmocr_sam (fun _ => ([], [])) (fun b => b) (fun _ _ => []) cexImg =
      (cexImg, [], []) :=
  C6_zero_regions (fun _ => ([], [])) (fun b => b) (fun _ _ => []) cexImg rfl

/-- C7: for a successful Stage A run whose external collaborators keep
their contracts (`rec_texts` and `det_polygons` index-aligned, one mask
per box), the number of table entries equals the number of detected
regions, entry `i` pairs the mask segmented from region `i`'s
(transformed) bounding box with region `i`'s closed polygon, and box `i`
is exactly the transform of `poly2bbox` of polygon `i`. -/
theorem C7_index_alignment (mmocr : Img → List (List Char) × List Polygon)
    (tr : BBox → BBox) (seg : Img → List BBox → List Mask3) (img : Img)
    (texts : List (List Char)) (polys : List Polygon)
    (ht : mmocr img = (texts, polys))
    (hlen : texts.length = polys.length)
    (hseg : ∀ boxes, (seg img boxes).length = boxes.length) :
    ((run_mmocr_sam mmocr tr seg img).2.2).length = polys.length ∧
    ∀ i, i < polys.length →
      ((run_mmocr_sam mmocr tr seg img).2.2).getD i (0, MaskEntry.mk [] []) =
        ((i : Int), MaskEntry.mk
          ((seg img ((polys.map poly2bbox).map tr)).getD i [])
          (closePoly (polys.getD i []))) ∧
      ((polys.map poly2bbox).map tr).getD i (0, 0, 0, 0) =
        tr (poly2bbox (polys.getD i [])) := by
  have hM : (seg img ((polys.map poly2bbox).map tr)).length = polys.length := by
    rw [hseg]
    simp
  have hB : ((polys.map poly2bbox).map tr).length = polys.length := by simp
  have hB2 : (polys.map poly2bbox).length = polys.length := by simp
  have hitems := stageAItems_length
    (seg img ((polys.map poly2bbox).map tr)) texts polys
    (polys.map poly2bbox) hM hlen hB2
  have htab := run_mmocr_sam_table mmocr tr seg img
  rw [ht] at htab
  constructor
  · rw [htab, List.length_map, hitems]
  · intro i hi
    constructor
    · rw [htab]
      rw [List.getD_eq_getElem _ _ (by rw [List.length_map, hitems]; omega),
        List.getD_eq_getElem _ _ (by rw [hM]; omega)]
      rw [List.getElem_map]
      rw [stageAItems_getElem _ _ _ _ i hM hlen hB2 hitems hi]
      rw [List.getD_eq_getElem _ _ hi]
    · rw [List.getD_eq_getElem _ _ (by rw [hB]; omega),
        List.getD_eq_getElem _ _ hi]
      rw [List.getElem_map, List.getElem_map]

/-- The detector fixture of the spec's scenario: one region reading
`HELLO` with box corners (10,10)-(50,30). -/
def helloMmocr : Img → List (List Char) × List Polygon :=
  fun _ => ([['H', 'E', 'L', 'L', 'O']], [[(10, 10), (50, 10), (50, 30), (10, 30)]])

/-- A segmenter fixture honouring the one-mask-per-box contract. -/
def oneSeg : Img → List BBox → List Mask3 :=
  fun _ boxes => boxes.map (fun _ => [[[true]]])

/-- C7, witness: the `HELLO` scenario has one aligned entry. -/
theorem C7_index_alignment_witness :
    ((run_mmocr_sam helloMmocr (fun b => b) oneSeg cexImg).2.2).length = 1 ∧
    ((run_mmocr_sam helloMmocr (fun b => b) oneSeg cexImg).2.2).getD 0
        (0, MaskEntry.mk [] []) =
      ((0 : Int), MaskEntry.mk [[[true]]]
        (closePoly [(10, 10), (50, 10), (50, 30), (10, 30)])) ∧
    (([[((10 : Int), (10 : Int)), (50, 10), (50, 30), (10, 30)]].map poly2bbox).map
        (fun b => b)).getD 0 (0, 0, 0, 0) =
      poly2bbox [(10, 10), (50, 10), (50, 30), (10, 30)] := by
  have h := C7_index_alignment helloMmocr (fun b => b) oneSeg cexImg
    [['H', 'E', 'L', 'L', 'O']] [[(10, 10), (50, 10), (50, 30), (10, 30)]]
    rfl rfl (fun boxes => by simp [oneSeg])
  exact ⟨h.1, (h.2 0 (by norm_num)).1, (h.2 0 (by norm_num)).2⟩

/-- C8: Stage B composites onto the ORIGINAL input image.  The
downstream click (a) is exactly `run_downstream` applied to
`input_image` — never to the annotated `output_image` — so (b) its
result is unchanged under any change of the displayed preview, and (c)
on success the composite has the original image's dimensions. -/
theorem C8_composites_original (pipe : List Char → Nat → Nat → Img → Img) :
    (∀ s : DemoState, downstreamClick pipe s =
      run_downstream pipe s.input_image s.mask_results s.text_index s.prompt) ∧
    (∀ s1 s2 : DemoState, s1.input_image = s2.input_image →
      s1.mask_results = s2.mask_results → s1.text_index = s2.text_index →
      s1.prompt = s2.prompt →
      downstreamClick pipe s1 = downstreamClick pipe s2) ∧
    (∀ (s : DemoState) (out : Img), downstreamClick pipe s = .ok out →
      out.width = s.input_image.width ∧ out.height = s.input_image.height) := by
  refine ⟨fun s => rfl, fun s1 s2 h1 h2 h3 h4 => ?_, fun s out hout => ?_⟩
  · simp only [downstreamClick, h1, h2, h3, h4]
  · unfold downstreamClick at hout
    cases hsel : selectMask s.mask_results s.text_index with
    | error e =>
      rw [run_downstream, hsel] at hout
      simp at hout
    | ok m0 =>
      rw [run_downstream_ok pipe s.input_image s.mask_results s.text_index
        s.prompt m0 hsel] at hout
      injection hout with h
      subst h
      exact ⟨rfl, rfl⟩

/-- C9: for a Stage A run over `n` regions (collaborator contracts as in
C7), the table keys are exactly `0..n-1` in detector order, and the
summary is the in-order concatenation of the lines `i:text_i\n`. -/
theorem C9_keys_and_summary (mmocr : Img → List (List Char) × List Polygon)
    (tr : BBox → BBox) (seg : Img → List BBox → List Mask3) (img : Img)
    (texts : List (List Char)) (polys : List Polygon)
    (ht : mmocr img = (texts, polys))
    (hlen : texts.length = polys.length)
    (hseg : ∀ boxes, (seg img boxes).length = boxes.length) :
    ((run_mmocr_sam mmocr tr seg img).2.2).map Prod.fst =
      (List.range polys.length).map Int.ofNat ∧
    (run_mmocr_sam mmocr tr seg img).2.1 =
      concatAll ((List.range polys.length).map
        (fun i => stageALine i (texts.getD i []))) := by
  have hM : (seg img ((polys.map poly2bbox).map tr)).length = polys.length := by
    rw [hseg]
    simp
  have hB2 : (polys.map poly2bbox).length = polys.length := by simp
  have hitems := stageAItems_length
    (seg img ((polys.map poly2bbox).map tr)) texts polys
    (polys.map poly2bbox) hM hlen hB2
  constructor
  · have htab := run_mmocr_sam_table mmocr tr seg img
    rw [ht] at htab
    rw [htab, List.map_map]
    apply List.ext_getElem
    · rw [List.length_map, List.length_map, List.length_range, hitems]
    · intro i h1 h2
      have hi : i < polys.length := by
        rw [List.length_map, hitems] at h1
        omega
      simp only [List.getElem_map, Function.comp_apply]
      rw [stageAItems_getElem _ _ _ _ i hM hlen hB2 hitems hi]
      rw [List.getElem_range]
      rfl
  · have hsum := run_mmocr_sam_summary mmocr tr seg img
    rw [ht] at hsum
    rw [hsum, concatAll_foldl, List.nil_append]
    congr 1
    apply List.ext_getElem
    · rw [List.length_map, List.length_map, List.length_range, hitems]
    · intro i h1 h2
      have hi : i < polys.length := by
        rw [List.length_map, hitems] at h1
        omega
      simp only [List.getElem_map]
      rw [stageAItems_getElem _ _ _ _ i hM hlen hB2 hitems hi]
      rw [List.getElem_range,
        List.getD_eq_getElem _ _ (show i < texts.length by omega)]

/-- C9, witness: the `HELLO` scenario — keys `[0]`, summary
`"0:HELLO\n"`. -/
theorem C9_keys_and_summary_witness :
    ((run_mmocr_sam helloMmocr (fun b => b) oneSeg cexImg).2.2).map Prod.fst =
      [(0 : Int)] ∧
    (run_mmocr_sam helloMmocr (fun b => b) oneSeg cexImg).2.1 =
      ['0', ':', 'H', 'E', 'L', 'L', 'O', '\n'] := by
  have h := C9_keys_and_summary helloMmocr (fun b => b) oneSeg cexImg
    [['H', 'E', 'L', 'L', 'O']] [[(10, 10), (50, 10), (50, 30), (10, 30)]]
    rfl rfl (fun boxes => by simp [oneSeg])
  refine ⟨?_, ?_⟩
  · rw [h.1]
    decide
  · rw [h.2]
    decide

end OcrSam
